import Mathlib

/-!
Verification development for the node-mencoder process-supervision core
(`lib/processor.js` and the binary-path cache of `lib/capabilities.js`).

The JavaScript code is shallowly embedded: every asynchronous callback
structure becomes an explicit fold over an event (or call) list, errors
become `Option JSError`, and the in-memory state closed over by the
callbacks becomes an explicit state record threaded through the fold.
-/

namespace Mencoder

/-- A JavaScript `Error` value, identified by its message. -/
structure JSError where
  message : String
deriving DecidableEq, Repr

/-! ## Priority control: `renice` (processor.js lines 585-618)

`renice` is a no-op on Windows; otherwise it warns when the requested
niceness is outside [-20, 20], clamps it with `Math.min(20, Math.max(-20, n))`
and stores the clamped value in `this.options.niceness`. -/

/-- The slice of a command's options that `renice` reads and writes. -/
structure CmdOptions where
  niceness : Int := 0
deriving DecidableEq, Repr

/-- Result of a `renice` call: the updated options and whether the
out-of-range warning was logged. -/
structure ReniceOut where
  options : CmdOptions
  warned : Bool
deriving DecidableEq, Repr

/-- `MencoderCommand#renice`, embedded from processor.js lines 585-594
(the live re-nicing of an already running process only logs and does not
change the stored options, so it is not part of the returned data). -/
def renice (isWindows : Bool) (opts : CmdOptions) (niceness : Int) : ReniceOut :=
  if isWindows then ⟨opts, false⟩
  else
    let warned := decide (niceness < -20) || decide (niceness > 20)
    let clamped := min 20 (max (-20) niceness)
    ⟨{ opts with niceness := clamped }, warned⟩

/-! ## One-shot terminal event: `emitEnd` (processor.js lines 404-416)

`run` closes an `ended` boolean over every completion path; `emitEnd`
emits `error` or `end` on the first call and ignores every later call.
A run is modelled as the list of `emitEnd` invocations made by the
racing internal paths, in arrival order. -/

/-- One invocation of `endCB`/`emitEnd`: `(err, stdout, stderr)`. -/
structure EndCall where
  error : Option JSError
  stdout : Option String
  stderr : Option String
deriving DecidableEq, Repr

/-- A terminal event observable on the command emitter. -/
inductive Terminal
  | errorEv (e : JSError) (stdout stderr : Option String)
  | endEv (stdout stderr : Option String)
deriving DecidableEq, Repr

/-- The terminal event that a single `emitEnd(err, stdout, stderr)` call
would produce if the latch were clear. -/
def terminalOf (c : EndCall) : Terminal :=
  match c.error with
  | some e => .errorEv e c.stdout c.stderr
  | none => .endEv c.stdout c.stderr

/-- One `emitEnd` call against the latch state: state is the `ended`
boolean plus the list of events emitted so far. -/
def emitEndStep (acc : Bool × List Terminal) (c : EndCall) : Bool × List Terminal :=
  if acc.1 then acc
  else (true, acc.2 ++ [terminalOf c])

/-- All terminal events emitted over a whole run, given the sequence of
`emitEnd` invocations made by the internal completion paths. -/
def runTerminals (calls : List EndCall) : List Terminal :=
  (calls.foldl emitEndStep (false, [])).2

theorem emitEndStep_latched (calls : List EndCall) (evs : List Terminal) :
    calls.foldl emitEndStep (true, evs) = (true, evs) := by
  induction calls with
  | nil => rfl
  | cons c rest ih => simpa [emitEndStep] using ih

/-- **C2** — For every run started by `MencoderCommand.run`, exactly one
terminal event fires: whatever sequence of completion attempts the racing
internal paths produce (supervisor completion, timeout, input-stream error,
output-stream close/error, post-processing failure), the `ended` latch lets
only the first one through, so the run emits exactly the one event
determined by the first `emitEnd` call — never both `error` and `end`,
never twice. -/
theorem run_exactly_one_terminal (first : EndCall) (rest : List EndCall) :
    runTerminals (first :: rest) = [terminalOf first]
    ∧ (runTerminals (first :: rest)).length = 1 := by
  have h : runTerminals (first :: rest) = [terminalOf first] := by
    simp [runTerminals, emitEndStep, emitEndStep_latched]
  exact ⟨h, by rw [h]; rfl⟩

/-- **C8** — On a non-Windows platform, `renice` stores the niceness
clamped into [-20, 20], warns exactly when the input was out of that
range, and in particular maps 999 to 20 and -999 to -20 (both with a
warning). -/
theorem renice_clamps (opts : CmdOptions) (n : Int) :
    (renice false opts n).options.niceness = min 20 (max (-20) n)
    ∧ -20 ≤ (renice false opts n).options.niceness
    ∧ (renice false opts n).options.niceness ≤ 20
    ∧ ((renice false opts n).warned = true ↔ (n < -20 ∨ n > 20))
    ∧ (renice false opts 999).options.niceness = 20
    ∧ (renice false opts 999).warned = true
    ∧ (renice false opts (-999)).options.niceness = -20
    ∧ (renice false opts (-999)).warned = true := by
  refine ⟨rfl, ?_, ?_, ?_, by rfl, by rfl, by rfl, by rfl⟩
  · show -20 ≤ min 20 (max (-20) n)
    omega
  · show min 20 (max (-20) n) ≤ 20
    omega
  · simp [renice]

/-! ## Command snapshot and the argument assembler (processor.js lines 216-265)

An input source / output target is either a filesystem path string or a
live stream (`typeof x !== 'string'` in the JS code). An output may also
have no target at all (`'target' in output` is false), modelled by
`Option`. Option bags (`utils.args()` objects) are modelled by the token
lists their `.get()` returns. -/

/-- A source or target: a path string, or a live stream object. -/
inductive Src
  | file (path : String)
  | stream
deriving DecidableEq, Repr

/-- One input of a command: its source and its option tokens. -/
structure InputSpec where
  source : Src
  options : List String := []
deriving DecidableEq, Repr

/-- One output of a command: optional target, audio/video/output option
tokens, filter lists and the flv-metadata flag. -/
structure OutputSpec where
  target : Option Src := none
  audio : List String := []
  audioFilters : List String := []
  video : List String := []
  videoFilters : List String := []
  sizeFilters : List String := []
  options : List String := []
  flvmeta : Bool := false
deriving DecidableEq, Repr

/-- The configuration snapshot a run reads from a `MencoderCommand`. -/
structure Command where
  inputs : List InputSpec := []
  outputs : List OutputSpec := []
  globalOptions : List String := []
  complexFilters : List String := []
deriving DecidableEq, Repr

/-- Modelled from the spec: `utils.makeFilterStrings` (utils.js is not
among the sources) renders size-filter descriptions to strings; filters
are modelled as already-rendered strings here, so it is the identity on
the list. -/
def makeFilterStrings (fs : List String) : List String := fs

/-- The resolved locator of an input: its path, or the `pipe:0`
placeholder for a stream (processor.js line 222). -/
def sourceLocator : Src → String
  | .file p => p
  | .stream => "pipe:0"

/-- Tokens contributed by one input: its option tokens then
`mf://` + resolved locator (processor.js lines 221-228). -/
def inputTokens (i : InputSpec) : List String :=
  i.options ++ ["mf://" ++ sourceLocator i.source]

/-- `Array.prototype.join(',')` on a token list. -/
def joinComma (l : List String) : String := String.intercalate "," l

/-- Tokens contributed by one output (processor.js lines 241-263): audio
options, a joined `-af` pair when audio filters exist, video options, a
joined `-vf` pair when video+size filters exist, output options, and the
target tokens (`-o path`, the `pipe:1` placeholder, or nothing). -/
def outputTokens (o : OutputSpec) : List String :=
  let sizeF := makeFilterStrings o.sizeFilters
  let audioF := o.audioFilters
  let videoF := o.videoFilters ++ sizeF
  let outputArg : List String :=
    match o.target with
    | none => []
    | some (.file p) => ["-o", p]
    | some .stream => ["pipe:1"]
  o.audio
    ++ (if audioF.length ≠ 0 then ["-af", joinComma audioF] else [])
    ++ o.video
    ++ (if videoF.length ≠ 0 then ["-vf", joinComma videoF] else [])
    ++ o.options
    ++ outputArg

/-- `MencoderCommand#_getArguments` (processor.js lines 216-265): the
two `reduce(concat)` loops become `foldl` with append. -/
def getArguments (c : Command) : List String :=
  (c.inputs.foldl (fun args i => args ++ inputTokens i) [])
    ++ c.globalOptions
    ++ c.complexFilters
    ++ (c.outputs.foldl (fun args o => args ++ outputTokens o) [])

/-- The token order as the specification states it: for each input in
order its tokens, then global tokens, then complex-filter tokens, then
for each output in order its tokens. -/
def getArgumentsSpec (c : Command) : List String :=
  c.inputs.flatMap inputTokens
    ++ c.globalOptions
    ++ c.complexFilters
    ++ c.outputs.flatMap outputTokens

theorem foldl_append_eq_bind {α β : Type} (f : α → List β) (l : List α) (init : List β) :
    l.foldl (fun args x => args ++ f x) init = init ++ l.flatMap f := by
  induction l generalizing init with
  | nil => simp
  | cons x xs ih => simp [List.foldl_cons, ih, List.append_assoc]

/-- **C3** — For every Command snapshot, `_getArguments` returns exactly
the fixed-order token list the specification describes: per-input option
tokens followed by the input's resolved locator (the `pipe:0` placeholder
for a stream), then global tokens, then complex-filter tokens, then for
each output in order audio options, one joined audio-filter token pair
only if audio filters exist, video options, one joined video+size-filter
token pair only if any exist, output options, and the output locator
tokens (`-o path`, `pipe:1` for a stream, nothing with no target).
The embedding is a pure function of the snapshot, as the JS code builds
fresh arrays with `concat`, so the snapshot is not mutated. -/
theorem getArguments_fixed_order (c : Command) :
    getArguments c = getArgumentsSpec c := by
  simp [getArguments, getArgumentsSpec, foldl_append_eq_bind]

/-! ## `run` pre-spawn check (processor.js lines 382-392)

`run` synchronously throws `'No output specified'` when no output has a
`target` property, before `_prepare` and before any subprocess is
spawned. The outcome of the binary-path lookup that `_spawnMencoder`
would later perform is a parameter. -/

/-- Outcome of `_getMencoderPath` as seen by `_spawnMencoder`. -/
inductive PathOutcome
  | failed (e : JSError)
  | found (p : String)
deriving DecidableEq, Repr

/-- `this._outputs.some(output => 'target' in output)` (lines 386-388). -/
def outputPresentCheck (c : Command) : Bool :=
  c.outputs.any (fun o => o.target.isSome)

/-- What the synchronous part of a `run` call produces: a thrown
configuration error, and the list of subprocesses spawned. -/
structure RunStartResult where
  thrown : Option JSError
  spawns : List (String × List String)
deriving DecidableEq, Repr

/-- The pre-spawn path of `MencoderCommand#run` (lines 382-392 then
`_prepare`/`_spawnMencoder`): throw `'No output specified'` when no
output has a target; otherwise resolve the binary and spawn it on the
assembled argument list (a failed or empty resolution reports through
`endCB` and spawns nothing). -/
def runStart (c : Command) (pathOut : PathOutcome) : RunStartResult :=
  if outputPresentCheck c then
    match pathOut with
    | .failed _ => ⟨none, []⟩
    | .found p => if p = "" then ⟨none, []⟩ else ⟨none, [(p, getArguments c)]⟩
  else ⟨some ⟨"No output specified"⟩, []⟩

/-- **C4** — For every Command in which no Output has a configured
target, `run` fails immediately with the configuration error
`'No output specified'` and no subprocess is ever spawned, whatever the
binary-path lookup would have produced. -/
theorem run_no_output_throws (c : Command) (pathOut : PathOutcome)
    (h : ∀ o ∈ c.outputs, o.target = none) :
    runStart c pathOut = ⟨some ⟨"No output specified"⟩, []⟩
    ∧ (runStart c pathOut).spawns = [] := by
  have hp : outputPresentCheck c = false := by
    simp only [outputPresentCheck, List.any_eq_false]
    intro o ho
    simp [h o ho]
  constructor
  · simp [runStart, hp]
  · simp [runStart, hp]

/-- Witness for C4 at a concrete command with one target-less output. -/
theorem run_no_output_throws_witness :
    (∀ o ∈ (Command.mk [] [{ flvmeta := false }] [] []).outputs, o.target = none)
    ∧ runStart (Command.mk [] [{ flvmeta := false }] [] []) (.found "mencoder")
      = ⟨some ⟨"No output specified"⟩, []⟩ := by
  refine ⟨by decide, ?_⟩
  exact (run_no_output_throws (Command.mk [] [{ flvmeta := false }] [] [])
    (.found "mencoder") (by decide)).1

/-! ## Process supervisor: `_spawnMencoder` (processor.js lines 100-206)

The asynchronous part of `_spawnMencoder` after a successful spawn is a
set of event handlers closing over `processExited`, `stdoutClosed`,
`stderrClosed`, `exitError` and the two accumulators. It is embedded as
a fold of a step function over the list of events the subprocess
delivers, in arrival order; each step returns the updated closure state
and the list of `endCB` invocations it makes. A run is either a single
spawn-failure `error` event, or an interleaving of one `exit` event,
per-captured-stream `close` events and any number of `data` events. -/

/-- Options accepted by `_spawnMencoder` (processor.js lines 82-86). -/
structure SpawnOptions where
  niceness : Int := 0
  captureStdout : Bool := false
  captureStderr : Bool := false
deriving DecidableEq, Repr

/-- An asynchronous event delivered to the handlers `_spawnMencoder`
registers on the child process and its streams. -/
inductive SpawnEvent
  | procError (e : JSError)
  | exited (code : Option Int) (signal : Option String)
  | outData (s : String)
  | outClose
  | errData (s : String)
  | errClose
deriving DecidableEq, Repr

def SpawnEvent.isExit : SpawnEvent → Bool
  | .exited _ _ => true
  | _ => false

def SpawnEvent.isOutClose : SpawnEvent → Bool
  | .outClose => true
  | _ => false

def SpawnEvent.isErrClose : SpawnEvent → Bool
  | .errClose => true
  | _ => false

def SpawnEvent.isProcError : SpawnEvent → Bool
  | .procError _ => true
  | _ => false

/-- The closure state shared by the handlers (processor.js lines 128-162). -/
structure SpawnState where
  processExited : Bool
  exitError : Option JSError
  stdout : Option String
  stdoutClosed : Bool
  stderr : Option String
  stderrClosed : Bool
deriving DecidableEq, Repr

/-- State just after the handlers are registered: accumulators are the
empty string exactly when capture was requested (lines 128-132, 176-177,
190-191). -/
def initSpawnState (opts : SpawnOptions) : SpawnState :=
  { processExited := false
    exitError := none
    stdout := if opts.captureStdout then some "" else none
    stdoutClosed := false
    stderr := if opts.captureStderr then some "" else none
    stderrClosed := false }

/-- JavaScript truthiness of the nullable `code` exit parameter. -/
def codeTruthy : Option Int → Bool
  | some c => decide (c ≠ 0)
  | none => false

/-- JavaScript truthiness of the nullable `signal` exit parameter. -/
def signalTruthy : Option String → Bool
  | some s => decide (s ≠ "")
  | none => false

/-- The error the `exit` handler passes to `handleExit` (lines 166-172):
a signal error when the signal is truthy, a code error when the code is
truthy, nothing otherwise. -/
def exitErrOf (code : Option Int) (signal : Option String) : Option JSError :=
  if signalTruthy signal then
    some ⟨"mencoder was killed with signal " ++ (signal.getD "")⟩
  else if codeTruthy code then
    some ⟨"mencoder exited with code " ++ toString (code.getD 0)⟩
  else none

/-- `handleExit` (processor.js lines 149-159): record the error if one is
given, then invoke `endCB(exitError, stdout, stderr)` only when the
process has exited and every captured stream has closed. -/
def handleExitCore (opts : SpawnOptions) (st : SpawnState) : SpawnState × List EndCall :=
  if st.processExited
      && (st.stdoutClosed || !opts.captureStdout)
      && (st.stderrClosed || !opts.captureStderr) then
    (st, [⟨st.exitError, st.stdout, st.stderr⟩])
  else (st, [])

def handleExit (opts : SpawnOptions) (st : SpawnState) (err : Option JSError) :
    SpawnState × List EndCall :=
  handleExitCore opts
    (match err with
     | some e => { st with exitError := some e }
     | none => st)

theorem handleExitCore_fst (opts : SpawnOptions) (st : SpawnState) :
    (handleExitCore opts st).1 = st := by
  unfold handleExitCore
  split <;> rfl

theorem handleExitCore_snd (opts : SpawnOptions) (st : SpawnState) :
    (handleExitCore opts st).2
      = (if st.processExited
          && (st.stdoutClosed || !opts.captureStdout)
          && (st.stderrClosed || !opts.captureStderr) then
          [⟨st.exitError, st.stdout, st.stderr⟩] else []) := by
  unfold handleExitCore
  split <;> simp_all

/-- One event against the registered handlers: the `error` handler calls
`endCB(err)` unconditionally (line 143-145); `exit` marks the process
exited and runs `handleExit` with the derived error (lines 162-173);
`data`/`close` handlers exist only when the stream is captured
(lines 176-201). -/
def spawnStep (opts : SpawnOptions) (st : SpawnState) : SpawnEvent → SpawnState × List EndCall
  | .procError e => (st, [⟨some e, none, none⟩])
  | .exited code signal =>
    handleExit opts { st with processExited := true } (exitErrOf code signal)
  | .outData s =>
    if opts.captureStdout then ({ st with stdout := some (st.stdout.getD "" ++ s) }, [])
    else (st, [])
  | .outClose =>
    if opts.captureStdout then handleExit opts { st with stdoutClosed := true } none
    else (st, [])
  | .errData s =>
    if opts.captureStderr then ({ st with stderr := some (st.stderr.getD "" ++ s) }, [])
    else (st, [])
  | .errClose =>
    if opts.captureStderr then handleExit opts { st with stderrClosed := true } none
    else (st, [])

/-- The whole supervised run: fold the handlers over the delivered
events, collecting every `endCB` invocation in order. -/
def spawnRun (opts : SpawnOptions) (tr : List SpawnEvent) : SpawnState × List EndCall :=
  tr.foldl
    (fun acc ev => ((spawnStep opts acc.1 ev).1, acc.2 ++ (spawnStep opts acc.1 ev).2))
    (initSpawnState opts, [])

/-- Whether the exit event has been observed in an event history. -/
def observedExit (tr : List SpawnEvent) : Bool := tr.any SpawnEvent.isExit

def observedOutClose (tr : List SpawnEvent) : Bool := tr.any SpawnEvent.isOutClose

def observedErrClose (tr : List SpawnEvent) : Bool := tr.any SpawnEvent.isErrClose

/-- All completion prerequisites observed: the exit event plus, for each
stream whose capture was requested, that stream's close event. -/
def eventsReady (opts : SpawnOptions) (tr : List SpawnEvent) : Bool :=
  observedExit tr
    && (observedOutClose tr || !opts.captureStdout)
    && (observedErrClose tr || !opts.captureStderr)

/-- The exit error determined by the first (and in a normal run only)
exit event of the history. -/
def exitErrVal (tr : List SpawnEvent) : Option JSError :=
  match tr.find? SpawnEvent.isExit with
  | some (.exited c s) => exitErrOf c s
  | _ => none

/-- A normally-spawned run: no spawn-failure event, and the platform
delivers `exit` and each stream's `close` at most once. -/
def NormalTrace (tr : List SpawnEvent) : Prop :=
  tr.countP SpawnEvent.isExit ≤ 1
  ∧ tr.countP SpawnEvent.isOutClose ≤ 1
  ∧ tr.countP SpawnEvent.isErrClose ≤ 1
  ∧ ∀ e ∈ tr, SpawnEvent.isProcError e = false

instance (tr : List SpawnEvent) : Decidable (NormalTrace tr) := by
  unfold NormalTrace; infer_instance

theorem normalTrace_append_left (l₁ l₂ : List SpawnEvent) (h : NormalTrace (l₁ ++ l₂)) :
    NormalTrace l₁ := by
  obtain ⟨h1, h2, h3, h4⟩ := h
  rw [List.countP_append] at h1 h2 h3
  exact ⟨by omega, by omega, by omega, fun e he => h4 e (List.mem_append_left _ he)⟩

theorem bool_and_or_not (c x : Bool) : ((c && x) || !c) = (x || !c) := by
  cases c <;> cases x <;> rfl

theorem spawnRun_append_singleton (opts : SpawnOptions) (l : List SpawnEvent) (e : SpawnEvent) :
    spawnRun opts (l ++ [e])
      = ((spawnStep opts (spawnRun opts l).1 e).1,
         (spawnRun opts l).2 ++ (spawnStep opts (spawnRun opts l).1 e).2) := by
  simp [spawnRun, List.foldl_append]

theorem find?_eq_none_of_no_exit (l : List SpawnEvent) (h : observedExit l = false) :
    l.find? SpawnEvent.isExit = none := by
  have h' : ∀ a ∈ l, ¬ SpawnEvent.isExit a = true := by
    simpa [observedExit, List.any_eq_false] using h
  exact List.find?_eq_none.mpr h'

theorem exitErrVal_of_no_exit (l : List SpawnEvent) (h : observedExit l = false) :
    exitErrVal l = none := by
  simp [exitErrVal, find?_eq_none_of_no_exit l h]

theorem exitErrVal_append_nonexit (l : List SpawnEvent) (e : SpawnEvent)
    (h : SpawnEvent.isExit e = false) :
    exitErrVal (l ++ [e]) = exitErrVal l := by
  unfold exitErrVal
  rw [List.find?_append]
  have : List.find? SpawnEvent.isExit [e] = none := by
    simp [List.find?, h]
  rw [this]
  rcases List.find? SpawnEvent.isExit l with _ | v <;> rfl

theorem exitErrVal_append_exit (l : List SpawnEvent) (code : Option Int)
    (signal : Option String) (h : observedExit l = false) :
    exitErrVal (l ++ [SpawnEvent.exited code signal]) = exitErrOf code signal := by
  unfold exitErrVal
  rw [List.find?_append, find?_eq_none_of_no_exit l h]
  simp [List.find?, SpawnEvent.isExit]

theorem any_eq_false_of_countP_eq_zero {α : Type} (p : α → Bool) (l : List α)
    (h : l.countP p = 0) : l.any p = false := by
  rw [List.any_eq_false]
  intro a ha hpa
  have : 0 < l.countP p := List.countP_pos_iff.mpr ⟨a, ha, hpa⟩
  omega

/-- The state and `endCB`-call invariant of a normally-spawned run: the
closure booleans mirror exactly which events have been observed, the
recorded exit error is the one derived from the exit event, and `endCB`
has been invoked (once, with that error) precisely when the exit event
and all required close events have been observed. -/
theorem spawnRun_invariant (opts : SpawnOptions) (tr : List SpawnEvent)
    (h : NormalTrace tr) :
    (spawnRun opts tr).1.processExited = observedExit tr
    ∧ (spawnRun opts tr).1.stdoutClosed = (opts.captureStdout && observedOutClose tr)
    ∧ (spawnRun opts tr).1.stderrClosed = (opts.captureStderr && observedErrClose tr)
    ∧ (spawnRun opts tr).1.exitError = exitErrVal tr
    ∧ (spawnRun opts tr).2.map EndCall.error
        = (if eventsReady opts tr then [exitErrVal tr] else []) := by
  induction tr using List.reverseRecOn with
  | nil =>
    refine ⟨rfl, by simp [spawnRun, initSpawnState, observedOutClose], by
      simp [spawnRun, initSpawnState, observedErrClose], rfl, by
      simp [spawnRun, eventsReady, observedExit, exitErrVal]⟩
  | append_singleton l e ih =>
    have hl : NormalTrace l := normalTrace_append_left l [e] h
    obtain ⟨ih1, ih2, ih3, ih4, ih5⟩ := ih hl
    rw [spawnRun_append_singleton]
    obtain ⟨hc1, hc2, hc3, hc4⟩ := h
    rw [List.countP_append] at hc1 hc2 hc3
    cases e with
    | procError e0 =>
      exact absurd (hc4 (SpawnEvent.procError e0) (by simp))
        (by simp [SpawnEvent.isProcError])
    | exited code signal =>
      have hcnt1 : List.countP SpawnEvent.isExit [SpawnEvent.exited code signal] = 1 := rfl
      have hcnt : l.countP SpawnEvent.isExit = 0 := by omega
      have hobs : observedExit l = false :=
        any_eq_false_of_countP_eq_zero SpawnEvent.isExit l hcnt
      have hreadyl : eventsReady opts l = false := by
        simp [eventsReady, hobs]
      have hcallsnil : (spawnRun opts l).2 = [] :=
        List.map_eq_nil_iff.mp (by rw [ih5, hreadyl]; rfl)
      have hvnone : exitErrVal l = none := exitErrVal_of_no_exit l hobs
      have hval : exitErrVal (l ++ [SpawnEvent.exited code signal]) = exitErrOf code signal :=
        exitErrVal_append_exit l code signal hobs
      have hobs' : observedExit (l ++ [SpawnEvent.exited code signal]) = true := by
        simp [observedExit, SpawnEvent.isExit]
      have hoc : observedOutClose (l ++ [SpawnEvent.exited code signal])
          = observedOutClose l := by
        simp [observedOutClose, SpawnEvent.isOutClose]
      have hec : observedErrClose (l ++ [SpawnEvent.exited code signal])
          = observedErrClose l := by
        simp [observedErrClose, SpawnEvent.isErrClose]
      rcases hE : exitErrOf code signal with _ | v
      · refine ⟨?_, ?_, ?_, ?_, ?_⟩
        · simp [spawnStep, handleExit, hE, handleExitCore_fst, hobs']
        · simp [spawnStep, handleExit, hE, handleExitCore_fst, hoc, ih2]
        · simp [spawnStep, handleExit, hE, handleExitCore_fst, hec, ih3]
        · simp [spawnStep, handleExit, hE, handleExitCore_fst, hval, ih4, hvnone]
        · simp only [spawnStep, handleExit, hE, handleExitCore_snd, hcallsnil,
            List.nil_append]
          rw [hval, hE]
          simp [eventsReady, hobs', hoc, hec, ih2, ih3, ih4, hvnone, bool_and_or_not,
            apply_ite (List.map EndCall.error)]
      · refine ⟨?_, ?_, ?_, ?_, ?_⟩
        · simp [spawnStep, handleExit, hE, handleExitCore_fst, hobs']
        · simp [spawnStep, handleExit, hE, handleExitCore_fst, hoc, ih2]
        · simp [spawnStep, handleExit, hE, handleExitCore_fst, hec, ih3]
        · simp [spawnStep, handleExit, hE, handleExitCore_fst, hval]
        · simp only [spawnStep, handleExit, hE, handleExitCore_snd, hcallsnil,
            List.nil_append]
          rw [hval, hE]
          simp [eventsReady, hobs', hoc, hec, ih2, ih3, bool_and_or_not,
            apply_ite (List.map EndCall.error)]
    | outData s =>
      have hoe : observedExit (l ++ [SpawnEvent.outData s]) = observedExit l := by
        simp [observedExit, SpawnEvent.isExit]
      have hoc : observedOutClose (l ++ [SpawnEvent.outData s]) = observedOutClose l := by
        simp [observedOutClose, SpawnEvent.isOutClose]
      have hec : observedErrClose (l ++ [SpawnEvent.outData s]) = observedErrClose l := by
        simp [observedErrClose, SpawnEvent.isErrClose]
      have hval : exitErrVal (l ++ [SpawnEvent.outData s]) = exitErrVal l :=
        exitErrVal_append_nonexit l _ (by simp [SpawnEvent.isExit])
      have hready : eventsReady opts (l ++ [SpawnEvent.outData s]) = eventsReady opts l := by
        simp [eventsReady, hoe, hoc, hec]
      refine ⟨?_, ?_, ?_, ?_, ?_⟩ <;>
        simp only [spawnStep, hoe, hoc, hec, hval, hready] <;>
        split <;> simp_all
    | outClose =>
      have hoe : observedExit (l ++ [SpawnEvent.outClose]) = observedExit l := by
        simp [observedExit, SpawnEvent.isExit]
      have hoc : observedOutClose (l ++ [SpawnEvent.outClose]) = true := by
        simp [observedOutClose, SpawnEvent.isOutClose]
      have hec : observedErrClose (l ++ [SpawnEvent.outClose]) = observedErrClose l := by
        simp [observedErrClose, SpawnEvent.isErrClose]
      have hval : exitErrVal (l ++ [SpawnEvent.outClose]) = exitErrVal l :=
        exitErrVal_append_nonexit l _ (by simp [SpawnEvent.isExit])
      cases hcap : opts.captureStdout with
      | false =>
        have hready : eventsReady opts (l ++ [SpawnEvent.outClose]) = eventsReady opts l := by
          simp [eventsReady, hoe, hoc, hec, hcap]
        refine ⟨?_, ?_, ?_, ?_, ?_⟩ <;>
          simp_all [spawnStep, hoe, hoc, hec, hval, hready]
      | true =>
        have hcnt1 : List.countP SpawnEvent.isOutClose [SpawnEvent.outClose] = 1 := rfl
        have hcnt : l.countP SpawnEvent.isOutClose = 0 := by omega
        have hobs : observedOutClose l = false :=
          any_eq_false_of_countP_eq_zero SpawnEvent.isOutClose l hcnt
        have hreadyl : eventsReady opts l = false := by
          simp [eventsReady, hobs, hcap]
        have hcallsnil : (spawnRun opts l).2 = [] :=
          List.map_eq_nil_iff.mp (by rw [ih5, hreadyl]; rfl)
        refine ⟨?_, ?_, ?_, ?_, ?_⟩
        · simp [spawnStep, hcap, handleExit, handleExitCore_fst, hoe, ih1]
        · simp [spawnStep, hcap, handleExit, handleExitCore_fst, hoc]
        · simp [spawnStep, hcap, handleExit, handleExitCore_fst, hec, ih3]
        · simp [spawnStep, hcap, handleExit, handleExitCore_fst, hval, ih4]
        · simp only [spawnStep, hcap, if_true, handleExit, handleExitCore_snd,
            hcallsnil, List.nil_append]
          rw [hval]
          simp [eventsReady, hoe, hoc, hec, hcap, ih1, ih3, ih4, bool_and_or_not,
            apply_ite (List.map EndCall.error)]
    | errData s =>
      have hoe : observedExit (l ++ [SpawnEvent.errData s]) = observedExit l := by
        simp [observedExit, SpawnEvent.isExit]
      have hoc : observedOutClose (l ++ [SpawnEvent.errData s]) = observedOutClose l := by
        simp [observedOutClose, SpawnEvent.isOutClose]
      have hec : observedErrClose (l ++ [SpawnEvent.errData s]) = observedErrClose l := by
        simp [observedErrClose, SpawnEvent.isErrClose]
      have hval : exitErrVal (l ++ [SpawnEvent.errData s]) = exitErrVal l :=
        exitErrVal_append_nonexit l _ (by simp [SpawnEvent.isExit])
      have hready : eventsReady opts (l ++ [SpawnEvent.errData s]) = eventsReady opts l := by
        simp [eventsReady, hoe, hoc, hec]
      refine ⟨?_, ?_, ?_, ?_, ?_⟩ <;>
        simp only [spawnStep, hoe, hoc, hec, hval, hready] <;>
        split <;> simp_all
    | errClose =>
      have hoe : observedExit (l ++ [SpawnEvent.errClose]) = observedExit l := by
        simp [observedExit, SpawnEvent.isExit]
      have hoc : observedOutClose (l ++ [SpawnEvent.errClose]) = observedOutClose l := by
        simp [observedOutClose, SpawnEvent.isOutClose]
      have hec : observedErrClose (l ++ [SpawnEvent.errClose]) = true := by
        simp [observedErrClose, SpawnEvent.isErrClose]
      have hval : exitErrVal (l ++ [SpawnEvent.errClose]) = exitErrVal l :=
        exitErrVal_append_nonexit l _ (by simp [SpawnEvent.isExit])
      cases hcap : opts.captureStderr with
      | false =>
        have hready : eventsReady opts (l ++ [SpawnEvent.errClose]) = eventsReady opts l := by
          simp [eventsReady, hoe, hoc, hec, hcap]
        refine ⟨?_, ?_, ?_, ?_, ?_⟩ <;>
          simp_all [spawnStep, hoe, hoc, hec, hval, hready]
      | true =>
        have hcnt1 : List.countP SpawnEvent.isErrClose [SpawnEvent.errClose] = 1 := rfl
        have hcnt : l.countP SpawnEvent.isErrClose = 0 := by omega
        have hobs : observedErrClose l = false :=
          any_eq_false_of_countP_eq_zero SpawnEvent.isErrClose l hcnt
        have hreadyl : eventsReady opts l = false := by
          simp [eventsReady, hobs, hcap]
        have hcallsnil : (spawnRun opts l).2 = [] :=
          List.map_eq_nil_iff.mp (by rw [ih5, hreadyl]; rfl)
        refine ⟨?_, ?_, ?_, ?_, ?_⟩
        · simp [spawnStep, hcap, handleExit, handleExitCore_fst, hoe, ih1]
        · simp [spawnStep, hcap, handleExit, handleExitCore_fst, hoc, ih2]
        · simp [spawnStep, hcap, handleExit, handleExitCore_fst, hec]
        · simp [spawnStep, hcap, handleExit, handleExitCore_fst, hval, ih4]
        · simp only [spawnStep, hcap, if_true, handleExit, handleExitCore_snd,
            hcallsnil, List.nil_append]
          rw [hval]
          simp [eventsReady, hoe, hoc, hec, hcap, ih1, ih2, ih4, bool_and_or_not,
            apply_ite (List.map EndCall.error)]

theorem find?_isExit_of_mem (tr : List SpawnEvent) (code : Option Int) (signal : Option String)
    (hc : tr.countP SpawnEvent.isExit ≤ 1) (hmem : SpawnEvent.exited code signal ∈ tr) :
    tr.find? SpawnEvent.isExit = some (SpawnEvent.exited code signal) := by
  induction tr with
  | nil => cases hmem
  | cons y ys ih =>
    by_cases hy : SpawnEvent.isExit y = true
    · have hys : ys.countP SpawnEvent.isExit = 0 := by
        rw [List.countP_cons_of_pos _ _ hy] at hc
        omega
      have hxy : SpawnEvent.exited code signal = y := by
        rcases List.mem_cons.mp hmem with h0 | h0
        · exact h0
        · exfalso
          have : 0 < ys.countP SpawnEvent.isExit :=
            List.countP_pos_iff.mpr ⟨_, h0, rfl⟩
          omega
      rw [List.find?_cons_of_pos _ hy]
      exact congrArg some hxy.symm
    · have hmem' : SpawnEvent.exited code signal ∈ ys := by
        rcases List.mem_cons.mp hmem with h0 | h0
        · exact absurd (h0 ▸ rfl : SpawnEvent.isExit y = true) hy
        · exact h0
      have hc' : ys.countP SpawnEvent.isExit ≤ 1 := by
        rw [List.countP_cons_of_neg _ _ hy] at hc
        exact hc
      rw [List.find?_cons_of_neg _ hy]
      exact ih hc' hmem'

theorem exitErrVal_eq_of_mem (tr : List SpawnEvent) (code : Option Int)
    (signal : Option String) (hc : tr.countP SpawnEvent.isExit ≤ 1)
    (hmem : SpawnEvent.exited code signal ∈ tr) :
    exitErrVal tr = exitErrOf code signal := by
  simp [exitErrVal, find?_isExit_of_mem tr code signal hc hmem]

theorem exitErrOf_isSome (code : Option Int) (signal : Option String) :
    (exitErrOf code signal).isSome = (signalTruthy signal || codeTruthy code) := by
  unfold exitErrOf
  cases h1 : signalTruthy signal
  · cases h2 : codeTruthy code <;> simp [h1, h2]
  · simp [h1]

/-- **C1** — Supervisor completion reconciliation for `_spawnMencoder`:
over any normally-spawned run (an interleaving of the single exit event,
per-captured-stream close events and data chunks, in any order), `endCB`
is invoked exactly once; after any prefix of the events it has been
invoked if and only if the exit event and, for each stream whose capture
was requested, that stream's close event have all been observed; the
reported error is non-null exactly when the exit carried a truthy signal
or a non-zero code; and a spawn-time `error` event invokes `endCB`
immediately, by itself. -/
theorem spawn_endCB_reconciliation (opts : SpawnOptions) (tr : List SpawnEvent)
    (code : Option Int) (signal : Option String)
    (hn : NormalTrace tr)
    (hex : SpawnEvent.exited code signal ∈ tr)
    (hout : opts.captureStdout = true → SpawnEvent.outClose ∈ tr)
    (herr : opts.captureStderr = true → SpawnEvent.errClose ∈ tr) :
    (spawnRun opts tr).2.length = 1
    ∧ (∀ a b, tr = a ++ b → ((spawnRun opts a).2 ≠ [] ↔ eventsReady opts a = true))
    ∧ (∀ call ∈ (spawnRun opts tr).2,
        call.error.isSome = (signalTruthy signal || codeTruthy code))
    ∧ (∀ e, (spawnRun opts [SpawnEvent.procError e]).2 = [⟨some e, none, none⟩]) := by
  have hobsE : observedExit tr = true := List.any_eq_true.mpr ⟨_, hex, rfl⟩
  have h2 : (observedOutClose tr || !opts.captureStdout) = true := by
    rcases hcs : opts.captureStdout
    · simp
    · have hoc : observedOutClose tr = true :=
        List.any_eq_true.mpr ⟨SpawnEvent.outClose, hout hcs, rfl⟩
      simp [hoc]
  have h3 : (observedErrClose tr || !opts.captureStderr) = true := by
    rcases hce : opts.captureStderr
    · simp
    · have hec : observedErrClose tr = true :=
        List.any_eq_true.mpr ⟨SpawnEvent.errClose, herr hce, rfl⟩
      simp [hec]
  have hready : eventsReady opts tr = true := by
    simp [eventsReady, hobsE, h2, h3]
  obtain ⟨_, _, _, _, hinv5⟩ := spawnRun_invariant opts tr hn
  have hmap : (spawnRun opts tr).2.map EndCall.error = [exitErrVal tr] := by
    rw [hinv5, hready]
    rfl
  refine ⟨?_, ?_, ?_, ?_⟩
  · have := congrArg List.length hmap
    simpa using this
  · intro a b hab
    have hna : NormalTrace a := normalTrace_append_left a b (hab ▸ hn)
    obtain ⟨_, _, _, _, ha5⟩ := spawnRun_invariant opts a hna
    rcases hr : eventsReady opts a
    · rw [hr] at ha5
      simp only [Bool.false_eq_true, if_false] at ha5
      have hnil : (spawnRun opts a).2 = [] := List.map_eq_nil_iff.mp ha5
      simp [hnil, hr]
    · rw [hr] at ha5
      simp only [if_true] at ha5
      refine ⟨fun _ => rfl, fun _ => ?_⟩
      intro hnil
      rw [hnil] at ha5
      cases ha5
  · intro call hcall
    have hmm : call.error ∈ (spawnRun opts tr).2.map EndCall.error :=
      List.mem_map_of_mem EndCall.error hcall
    rw [hmap] at hmm
    have heq : call.error = exitErrVal tr := List.mem_singleton.mp hmm
    rw [heq, exitErrVal_eq_of_mem tr code signal hn.1 hex, exitErrOf_isSome]
  · intro e
    simp [spawnRun, spawnStep]

/-- Witness for C1: a captured-both-streams run whose events arrive in
the order stderr-data, exit(code 1), stdout-close, stderr-close. -/
theorem spawn_endCB_reconciliation_witness :
    NormalTrace [SpawnEvent.errData "x", SpawnEvent.exited (some 1) none,
      SpawnEvent.outClose, SpawnEvent.errClose]
    ∧ (spawnRun ⟨0, true, true⟩
        [SpawnEvent.errData "x", SpawnEvent.exited (some 1) none,
         SpawnEvent.outClose, SpawnEvent.errClose]).2.length = 1 := by
  have hn : NormalTrace [SpawnEvent.errData "x", SpawnEvent.exited (some 1) none,
      SpawnEvent.outClose, SpawnEvent.errClose] := by
    decide
  exact ⟨hn, (spawn_endCB_reconciliation ⟨0, true, true⟩
    [SpawnEvent.errData "x", SpawnEvent.exited (some 1) none,
     SpawnEvent.outClose, SpawnEvent.errClose]
    (some 1) none hn (by decide) (fun _ => by decide) (fun _ => by decide)).1⟩

/-! ## Spawn setup: path check, niceness rewrite, `processCB`
(processor.js lines 114-137 and 203-205)

The synchronous body of the `_getMencoderPath` callback: fail through
`endCB` when path resolution errored or produced an empty path; otherwise
rewrite the invocation through the `nice` wrapper when a non-zero
niceness was requested on a non-Windows platform (`args.unshift` mutates
the caller's array in place), spawn, register the handlers, and finally
call `processCB` with the live process handle. `args.unshift` aliasing is
modelled by exposing the caller array's contents after the call. -/

/-- Everything the synchronous setup phase of `_spawnMencoder` does:
the `processCB` invocations made, the `endCB` invocations made, the
subprocess spawned (command and argument list), and the contents of the
caller's `args` array after the call. -/
structure SetupOutcome where
  processCBCalls : List Nat
  endCalls : List EndCall
  spawned : Option (String × List String)
  callerArgs : List String
deriving DecidableEq, Repr

/-- The setup phase of `_spawnMencoder` (lines 114-137, 203-205), given
the outcome of `_getMencoderPath` and the handle the platform's `spawn`
returns. `processCB(mencoderProc)` runs synchronously at the end of the
successful setup path and on no other path. -/
def spawnSetup (isWindows : Bool) (opts : SpawnOptions) (args : List String)
    (pathOut : PathOutcome) (handle : Nat) : SetupOutcome :=
  match pathOut with
  | .failed e => ⟨[], [⟨some e, none, none⟩], none, args⟩
  | .found c =>
    if c = "" then ⟨[], [⟨some ⟨"Cannot find mencoder"⟩, none, none⟩], none, args⟩
    else if opts.niceness ≠ 0 && !isWindows then
      ⟨[handle], [], some ("nice", "-n" :: toString opts.niceness :: c :: args),
        "-n" :: toString opts.niceness :: c :: args⟩
    else ⟨[handle], [], some (c, args), args⟩

/-- **C5** — `processCB` (`onStart`) is invoked exactly once, with the
live process handle and with the process actually spawned, whenever the
setup phase succeeds; it is never invoked on the failing setup paths
(path-resolution error, or empty resolved path), which instead report
through `endCB`. -/
theorem spawnSetup_processCB (isWindows : Bool) (opts : SpawnOptions)
    (args : List String) (handle : Nat) (p : String) (hp : p ≠ "") :
    (∀ e, (spawnSetup isWindows opts args (.failed e) handle).processCBCalls = []
      ∧ (spawnSetup isWindows opts args (.failed e) handle).spawned = none)
    ∧ (spawnSetup isWindows opts args (.found "") handle).processCBCalls = []
    ∧ (spawnSetup isWindows opts args (.found "") handle).spawned = none
    ∧ (spawnSetup isWindows opts args (.found p) handle).processCBCalls = [handle]
    ∧ (spawnSetup isWindows opts args (.found p) handle).spawned.isSome = true := by
  refine ⟨fun e => ⟨rfl, rfl⟩, rfl, rfl, ?_, ?_⟩
  · simp [spawnSetup, hp, apply_ite SetupOutcome.processCBCalls]
  · simp [spawnSetup, hp, apply_ite SetupOutcome.spawned, apply_ite Option.isSome]

/-- Witness for C5 at a concrete resolved path. -/
theorem spawnSetup_processCB_witness :
    ("/usr/bin/mencoder" ≠ "")
    ∧ (spawnSetup false ⟨0, false, false⟩ ["a"] (.found "/usr/bin/mencoder") 7).processCBCalls
      = [7] := by
  refine ⟨by decide, ?_⟩
  exact (spawnSetup_processCB false ⟨0, false, false⟩ ["a"] 7 "/usr/bin/mencoder"
    (by decide)).2.2.2.1

/-- **C10** — When a non-zero niceness is requested on a non-Windows
platform and the binary path resolves, the caller's `args` array is
changed in place: after the call it holds `-n`, the niceness value and
the resolved binary path prepended before all the original tokens (each
original token shifted three places), and the spawn goes through the
`nice` wrapper on that same array. -/
theorem spawnSetup_niceness_mutates (opts : SpawnOptions) (args : List String)
    (p : String) (handle : Nat) (hn : opts.niceness ≠ 0) (hp : p ≠ "") :
    (spawnSetup false opts args (.found p) handle).callerArgs
      = "-n" :: toString opts.niceness :: p :: args
    ∧ (spawnSetup false opts args (.found p) handle).spawned
      = some ("nice", "-n" :: toString opts.niceness :: p :: args)
    ∧ (∀ i, ("-n" :: toString opts.niceness :: p :: args).get? (i + 3) = args.get? i)
    ∧ (spawnSetup false opts args (.found p) handle).callerArgs ≠ args := by
  have h1 : (spawnSetup false opts args (.found p) handle).callerArgs
      = "-n" :: toString opts.niceness :: p :: args := by
    simp [spawnSetup, hp, hn]
  refine ⟨h1, ?_, fun i => rfl, ?_⟩
  · simp [spawnSetup, hp, hn]
  · rw [h1]
    intro hcontra
    have := congrArg List.length hcontra
    simp at this
    omega

/-- Witness for C10 at a concrete niceness and path. -/
theorem spawnSetup_niceness_mutates_witness :
    ((5 : Int) ≠ 0) ∧ ("/usr/bin/mencoder" ≠ "")
    ∧ (spawnSetup false ⟨5, false, false⟩ ["-o", "out.avi"]
        (.found "/usr/bin/mencoder") 7).callerArgs
      = ["-n", "5", "/usr/bin/mencoder", "-o", "out.avi"] := by
  refine ⟨by decide, by decide, ?_⟩
  exact (spawnSetup_niceness_mutates ⟨5, false, false⟩ ["-o", "out.avi"]
    "/usr/bin/mencoder" 7 (by decide) (by decide)).1

/-! ## Codec-banner latch (processor.js lines 503-513)

`run` sets `_codecDataSent = false`, then on every stderr data chunk
appends to the accumulator and, only while the latch is clear (and a
listener exists), hands the whole accumulator to
`utils.extractCodecData`. The banner matcher itself lives in the absent
utils.js and is a parameter of the model. -/

/-- The per-run codec-banner state: the latch and the accumulated stderr. -/
structure CodecScan where
  codecDataSent : Bool
  stderrAcc : String
deriving DecidableEq, Repr

/-- Result of replaying stderr chunks: final state, the emitted codecData
payloads, and how many times the banner scan was invoked. -/
structure CodecScanOut where
  state : CodecScan
  emits : List String
  scans : Nat
deriving DecidableEq, Repr

/-- Modelled from the spec: `utils.extractCodecData` (utils.js is absent
from the sources) scans the accumulated stderr for the one-time codec
banner; on a match it emits the codecData event and sets the run's
codec-banner latch. The banner matcher is the parameter `banner`. -/
def extractCodecData (banner : String → Option String) (st : CodecScan) :
    CodecScan × List String :=
  match banner st.stderrAcc with
  | some cd => (⟨true, st.stderrAcc⟩, [cd])
  | none => (st, [])

/-- One stderr `data` chunk (processor.js lines 505-513): append to the
accumulator, then scan only if the latch is clear and listeners exist. -/
def stderrDataStep (banner : String → Option String) (hasListeners : Bool)
    (acc : CodecScanOut) (chunk : String) : CodecScanOut :=
  let st1 : CodecScan := ⟨acc.state.codecDataSent, acc.state.stderrAcc ++ chunk⟩
  if !st1.codecDataSent && hasListeners then
    let r := extractCodecData banner st1
    ⟨r.1, acc.emits ++ r.2, acc.scans + 1⟩
  else ⟨st1, acc.emits, acc.scans⟩

/-- Replay a whole run's stderr chunks from the run-start state
(`_codecDataSent = false`, empty accumulator). -/
def processStderr (banner : String → Option String) (hasListeners : Bool)
    (chunks : List String) : CodecScanOut :=
  chunks.foldl (stderrDataStep banner hasListeners) ⟨⟨false, ""⟩, [], 0⟩

theorem stderrDataStep_latched (banner : String → Option String) (hl : Bool)
    (b : List String) (acc : CodecScanOut) (h : acc.state.codecDataSent = true) :
    ((b.foldl (stderrDataStep banner hl) acc).emits = acc.emits)
    ∧ ((b.foldl (stderrDataStep banner hl) acc).scans = acc.scans)
    ∧ (b.foldl (stderrDataStep banner hl) acc).state.codecDataSent = true := by
  induction b generalizing acc with
  | nil => exact ⟨rfl, rfl, h⟩
  | cons c rest ih =>
    have hstep : stderrDataStep banner hl acc c
        = ⟨⟨true, acc.state.stderrAcc ++ c⟩, acc.emits, acc.scans⟩ := by
      simp [stderrDataStep, h]
    rw [List.foldl_cons, hstep]
    exact ih _ rfl

theorem processStderr_le_one_aux (banner : String → Option String) (hl : Bool)
    (chunks : List String) (acc : CodecScanOut)
    (h1 : acc.state.codecDataSent = false → acc.emits = [])
    (h2 : acc.emits.length ≤ 1) :
    (chunks.foldl (stderrDataStep banner hl) acc).emits.length ≤ 1 := by
  induction chunks generalizing acc with
  | nil => exact h2
  | cons c rest ih =>
    rw [List.foldl_cons]
    by_cases hg : (!acc.state.codecDataSent && hl) = true
    · have hg' := hg
      simp only [Bool.and_eq_true, Bool.not_eq_true'] at hg'
      obtain ⟨hs, hhl⟩ := hg'
      rcases hb : banner (acc.state.stderrAcc ++ c) with _ | cd
      · have hstep : stderrDataStep banner hl acc c
            = ⟨⟨false, acc.state.stderrAcc ++ c⟩, acc.emits, acc.scans + 1⟩ := by
          simp [stderrDataStep, extractCodecData, hs, hhl, hb]
        rw [hstep]
        exact ih _ (fun _ => h1 hs) h2
      · have hstep : stderrDataStep banner hl acc c
            = ⟨⟨true, acc.state.stderrAcc ++ c⟩, acc.emits ++ [cd], acc.scans + 1⟩ := by
          simp [stderrDataStep, extractCodecData, hs, hhl, hb]
        rw [hstep]
        have hemits : acc.emits = [] := h1 hs
        refine ih _ (fun hfalse => absurd hfalse (by simp)) ?_
        simp [hemits]
    · have hstep : stderrDataStep banner hl acc c
          = ⟨⟨acc.state.codecDataSent, acc.state.stderrAcc ++ c⟩, acc.emits, acc.scans⟩ := by
        simp only [stderrDataStep]
        rw [if_neg (by simpa using hg)]
      rw [hstep]
      exact ih _ (fun hf => h1 (by simpa using hf)) h2

/-- **C6** — The codecData event fires at most once per run: over any
sequence of stderr chunks the number of emissions is at most one, and
once the `_codecDataSent` latch is set by some prefix of the chunks,
processing the remaining chunks performs no further banner scan and no
further emission, whatever the banner matcher and the chunks. -/
theorem codecData_banner_once (banner : String → Option String) (hasListeners : Bool)
    (chunks a b : List String) (hab : chunks = a ++ b)
    (hsent : (processStderr banner hasListeners a).state.codecDataSent = true) :
    (processStderr banner hasListeners chunks).emits.length ≤ 1
    ∧ (processStderr banner hasListeners chunks).scans
        = (processStderr banner hasListeners a).scans
    ∧ (processStderr banner hasListeners chunks).emits
        = (processStderr banner hasListeners a).emits := by
  subst hab
  have hsplit : processStderr banner hasListeners (a ++ b)
      = b.foldl (stderrDataStep banner hasListeners) (processStderr banner hasListeners a) := by
    simp [processStderr, List.foldl_append]
  obtain ⟨he, hs, _⟩ :=
    stderrDataStep_latched banner hasListeners b (processStderr banner hasListeners a) hsent
  refine ⟨?_, by rw [hsplit]; exact hs, by rw [hsplit]; exact he⟩
  exact processStderr_le_one_aux banner hasListeners (a ++ b) ⟨⟨false, ""⟩, [], 0⟩
    (fun _ => rfl) (by simp)

/-- Witness for C6: the banner is found in the first chunk; the second
chunk (which still contains the banner text) is not rescanned. -/
theorem codecData_banner_once_witness :
    (["BANNER", "BANNER tail"] = ["BANNER"] ++ ["BANNER tail"])
    ∧ (processStderr (fun s => if s = "BANNER" then some s else none) true
        ["BANNER"]).state.codecDataSent = true
    ∧ (processStderr (fun s => if s = "BANNER" then some s else none) true
        ["BANNER", "BANNER tail"]).emits.length ≤ 1 := by
  refine ⟨rfl, by decide, ?_⟩
  exact (codecData_banner_once (fun s => if s = "BANNER" then some s else none) true
    ["BANNER", "BANNER tail"] ["BANNER"] ["BANNER tail"] rfl (by decide)).1

/-! ## Post-processing fan-out in `endCB` (processor.js lines 516-568)

On a successful transcoder exit, `endCB` filters the outputs whose
`flags.flvmeta` is set; with none it calls `emitEnd(null, stdout, stderr)`
immediately, otherwise it spawns the metadata rewriter once per such
output through `async.each` (all iteratees started; the final callback
receives the first error to occur, or null when every one succeeded) and
then calls `emitEnd` with that result. Completion order is modelled as
list order. -/

/-- `async.each`'s final-callback error: the first non-null result in
completion order. -/
def firstSomeErr : List (Option JSError) → Option JSError
  | [] => none
  | some e :: _ => some e
  | none :: rest => firstSomeErr rest

/-- The target path the rewriter is spawned on (`output.target`;
`_prepare` forces the flvmeta flag off for non-file outputs). -/
def flvTargetOf (o : OutputSpec) : String :=
  match o.target with
  | some (.file p) => p
  | _ => ""

/-- `self._outputs.filter(output => output.flags.flvmeta)` (lines 528-530). -/
def flvOutputs (outputs : List OutputSpec) : List OutputSpec :=
  outputs.filter (fun o => o.flvmeta)

/-- What the success path of `endCB` does: the rewriter spawns it makes
and the terminal event it reaches through `emitEnd`. -/
structure EndCBOut where
  flvSpawnTargets : List String
  terminal : Terminal
deriving DecidableEq, Repr

/-- The success path of `endCB` (lines 526-567), with each output's
rewrite outcome given by `rewriteErr` on its target. -/
def endCBSuccess (outputs : List OutputSpec) (rewriteErr : String → Option JSError)
    (stdout stderr : Option String) : EndCBOut :=
  let flv := flvOutputs outputs
  if flv.length = 0 then ⟨[], .endEv stdout stderr⟩
  else
    let targets := flv.map flvTargetOf
    match firstSomeErr (targets.map rewriteErr) with
    | some e => ⟨targets, .errorEv e none none⟩
    | none => ⟨targets, .endEv stdout stderr⟩

theorem firstSomeErr_eq_none_iff (l : List (Option JSError)) :
    firstSomeErr l = none ↔ ∀ x ∈ l, x = none := by
  induction l with
  | nil => simp [firstSomeErr]
  | cons x rest ih =>
    rcases x with _ | e
    · simpa [firstSomeErr] using ih
    · simp [firstSomeErr]

/-- **C7** — After a successful transcoder exit: with no flvmeta output,
`end` fires immediately and no rewriter is spawned; otherwise the
rewriter is spawned once per flvmeta output (all of them), `end` fires
exactly when every rewrite succeeds, and otherwise `error` fires carrying
the first rewrite failure (`firstSomeErr` returns none precisely when all
rewrites succeeded). -/
theorem endCB_flvmeta_postprocessing (outputs : List OutputSpec)
    (rewriteErr : String → Option JSError) (stdout stderr : Option String) :
    ((flvOutputs outputs).length = 0 →
      endCBSuccess outputs rewriteErr stdout stderr = ⟨[], .endEv stdout stderr⟩)
    ∧ ((flvOutputs outputs).length ≠ 0 →
      (endCBSuccess outputs rewriteErr stdout stderr).flvSpawnTargets
        = (flvOutputs outputs).map flvTargetOf)
    ∧ ((∀ t ∈ (flvOutputs outputs).map flvTargetOf, rewriteErr t = none) →
      (endCBSuccess outputs rewriteErr stdout stderr).terminal = .endEv stdout stderr)
    ∧ (∀ e, firstSomeErr (((flvOutputs outputs).map flvTargetOf).map rewriteErr) = some e →
      (endCBSuccess outputs rewriteErr stdout stderr).terminal = .errorEv e none none)
    ∧ (∀ l : List (Option JSError), firstSomeErr l = none ↔ ∀ x ∈ l, x = none) := by
  refine ⟨?_, ?_, ?_, ?_, firstSomeErr_eq_none_iff⟩
  · intro hz
    simp [endCBSuccess, hz]
  · intro hnz
    simp only [endCBSuccess]
    rw [if_neg hnz]
    rcases hb : firstSomeErr (((flvOutputs outputs).map flvTargetOf).map rewriteErr)
      with _ | e <;> rfl
  · intro hall
    have hnone : firstSomeErr (((flvOutputs outputs).map flvTargetOf).map rewriteErr)
        = none := by
      rw [firstSomeErr_eq_none_iff]
      intro x hx
      rcases List.mem_map.mp hx with ⟨t, ht, rfl⟩
      exact hall t ht
    by_cases hz : (flvOutputs outputs).length = 0
    · simp [endCBSuccess, hz]
    · simp only [endCBSuccess]
      rw [if_neg hz, hnone]
  · intro e he
    have hnz : ¬(flvOutputs outputs).length = 0 := by
      intro hz
      have hempty : flvOutputs outputs = [] := List.length_eq_zero.mp hz
      rw [hempty] at he
      simp [firstSomeErr] at he
    simp only [endCBSuccess]
    rw [if_neg hnz, he]

/-- Witness for C7: one flvmeta output whose rewrite succeeds, so the
run ends with `end`. -/
theorem endCB_flvmeta_postprocessing_witness :
    ((flvOutputs [{ target := some (.file "a.flv"), flvmeta := true }]).length ≠ 0)
    ∧ (∀ t ∈ (flvOutputs [{ target := some (.file "a.flv"), flvmeta := true }]).map
        flvTargetOf, (fun _ : String => (none : Option JSError)) t = none)
    ∧ (endCBSuccess [{ target := some (.file "a.flv"), flvmeta := true }]
        (fun _ => none) (some "so") (some "se")).terminal = .endEv (some "so") (some "se") := by
  refine ⟨by decide, by decide, ?_⟩
  exact (endCB_flvmeta_postprocessing [{ target := some (.file "a.flv"), flvmeta := true }]
    (fun _ => none) (some "so") (some "se")).2.2.1 (by decide)

/-! ## Binary-path cache (capabilities.js lines 661-765, 779-836, 849-909)

Each `_getXPath` first consults the module-wide `cache`; on a miss it
runs its resolution waterfall and writes the result — `x || ''`, so the
empty string of a failed lookup included — back into the cache, while a
waterfall error leaves the cache unwritten. The waterfall bodies
(environment-variable override, then `utils.which` over the system PATH,
utils.js being absent from the sources) are abstracted as their outcome
`resolver`; `consulted` records whether the waterfall ran at all. -/

/-- The module-wide `cache` object of capabilities.js. -/
structure PathCache where
  mencoderPath : Option String := none
  ffprobePath : Option String := none
  flvtoolPath : Option String := none
deriving DecidableEq, Repr

/-- Outcome of a resolution waterfall: a path (possibly empty after
`x || ''`) or an error. -/
inductive PathRes
  | ok (p : String)
  | err (e : JSError)
deriving DecidableEq, Repr

/-- Result of one `_getXPath` call: the cache afterwards, the value
passed to the callback, and whether the waterfall was consulted. -/
structure GetPathOut where
  cache : PathCache
  result : PathRes
  consulted : Bool
deriving DecidableEq, Repr

/-- `_getMencoderPath` (capabilities.js lines 727-765). -/
def getMencoderPath (cache : PathCache) (resolver : PathRes) : GetPathOut :=
  match cache.mencoderPath with
  | some p => ⟨cache, .ok p, false⟩
  | none =>
    match resolver with
    | .err e => ⟨cache, .err e, true⟩
    | .ok m => ⟨{ cache with mencoderPath := some m }, .ok m, true⟩

/-- `_getFfprobePath` (capabilities.js lines 779-836). -/
def getFfprobePath (cache : PathCache) (resolver : PathRes) : GetPathOut :=
  match cache.ffprobePath with
  | some p => ⟨cache, .ok p, false⟩
  | none =>
    match resolver with
    | .err e => ⟨cache, .err e, true⟩
    | .ok m => ⟨{ cache with ffprobePath := some m }, .ok m, true⟩

/-- `_getFlvtoolPath` (capabilities.js lines 849-909). -/
def getFlvtoolPath (cache : PathCache) (resolver : PathRes) : GetPathOut :=
  match cache.flvtoolPath with
  | some p => ⟨cache, .ok p, false⟩
  | none =>
    match resolver with
    | .err e => ⟨cache, .err e, true⟩
    | .ok m => ⟨{ cache with flvtoolPath := some m }, .ok m, true⟩

/-- `_forgetPaths` (capabilities.js lines 711-715): delete all three
cached paths. -/
def forgetPaths (_cache : PathCache) : PathCache := ⟨none, none, none⟩

/-- **C9** — Binary-path resolution caches negative results too: a call
that finds the cache populated returns the cached value — the empty
string of a failed lookup included — without consulting the resolution
waterfall and without changing the cache; a completed miss writes its
result back so that every subsequent call short-circuits; a waterfall
error writes nothing; and after `_forgetPaths` the waterfall is consulted
again. Likewise for `_getFfprobePath` and `_getFlvtoolPath`. -/
theorem path_lookup_negative_caching (cache : PathCache) :
    (∀ p r, cache.mencoderPath = some p →
      getMencoderPath cache r = ⟨cache, .ok p, false⟩)
    ∧ (∀ m r2, cache.mencoderPath = none →
      getMencoderPath cache (.ok m)
        = ⟨{ cache with mencoderPath := some m }, .ok m, true⟩
      ∧ getMencoderPath (getMencoderPath cache (.ok m)).cache r2
        = ⟨(getMencoderPath cache (.ok m)).cache, .ok m, false⟩)
    ∧ (∀ e, cache.mencoderPath = none →
      getMencoderPath cache (.err e) = ⟨cache, .err e, true⟩)
    ∧ (∀ p r, cache.ffprobePath = some p →
      getFfprobePath cache r = ⟨cache, .ok p, false⟩)
    ∧ (∀ m r2, cache.ffprobePath = none →
      getFfprobePath cache (.ok m)
        = ⟨{ cache with ffprobePath := some m }, .ok m, true⟩
      ∧ getFfprobePath (getFfprobePath cache (.ok m)).cache r2
        = ⟨(getFfprobePath cache (.ok m)).cache, .ok m, false⟩)
    ∧ (∀ p r, cache.flvtoolPath = some p →
      getFlvtoolPath cache r = ⟨cache, .ok p, false⟩)
    ∧ (∀ m r2, cache.flvtoolPath = none →
      getFlvtoolPath cache (.ok m)
        = ⟨{ cache with flvtoolPath := some m }, .ok m, true⟩
      ∧ getFlvtoolPath (getFlvtoolPath cache (.ok m)).cache r2
        = ⟨(getFlvtoolPath cache (.ok m)).cache, .ok m, false⟩)
    ∧ (∀ r, (getMencoderPath (forgetPaths cache) r).consulted = true
      ∧ (getFfprobePath (forgetPaths cache) r).consulted = true
      ∧ (getFlvtoolPath (forgetPaths cache) r).consulted = true) := by
  refine ⟨?_, ?_, ?_, ?_, ?_, ?_, ?_, ?_⟩
  · intro p r hp
    simp [getMencoderPath, hp]
  · intro m r2 hm
    constructor
    · simp [getMencoderPath, hm]
    · simp [getMencoderPath, hm]
  · intro e hm
    simp [getMencoderPath, hm]
  · intro p r hp
    simp [getFfprobePath, hp]
  · intro m r2 hm
    constructor
    · simp [getFfprobePath, hm]
    · simp [getFfprobePath, hm]
  · intro p r hp
    simp [getFlvtoolPath, hp]
  · intro m r2 hm
    constructor
    · simp [getFlvtoolPath, hm]
    · simp [getFlvtoolPath, hm]
  · intro r
    rcases r with p | e <;>
      exact ⟨rfl, rfl, rfl⟩

/-- Witness for C9: after a failed lookup cached as the empty string, a
later call returns the empty string without consulting the waterfall,
even though the waterfall would now find the binary. -/
theorem path_lookup_negative_caching_witness :
    ((⟨none, none, none⟩ : PathCache).mencoderPath = none)
    ∧ getMencoderPath (getMencoderPath ⟨none, none, none⟩ (.ok "")).cache
        (.ok "/usr/bin/mencoder")
      = ⟨(getMencoderPath ⟨none, none, none⟩ (.ok "")).cache, .ok "", false⟩ := by
  refine ⟨rfl, ?_⟩
  exact ((path_lookup_negative_caching ⟨none, none, none⟩).2.1 ""
    (.ok "/usr/bin/mencoder") rfl).2

end Mencoder
